import Mathlib

set_option maxRecDepth 8000

namespace AvatarStreamer

/-! Shallow embedding of the avatar-streamer fingerprinting and latency
pipeline.  Sources: `src/robot/stream.py` (sender, `VideoStreamer`) and
`src/operator/view.py` (receiver, `LatencyCalculator` /
`VideoStreamReceiver`).  Machine `float` timestamps are modelled as `ℚ`
(every arithmetic step the claims touch is exact in double precision),
numpy frames as a dimension pair with a pixel function, and Python dicts
as association lists in insertion order. -/

/-- A BGR frame: `px r c ch` is the pixel value at row `r`, column `c`,
channel `ch` (meaningful for `r < h`, `c < w`, `ch < 3`). -/
structure Frame where
  h : ℕ
  w : ℕ
  px : ℕ → ℕ → ℕ → ℕ

/-- Numpy slice assignment `frame[r0:r0+32, c0:c0+32, :] = v`, including the
slice-clipping semantics: indices at or past `h`/`w` are silently skipped. -/
def paintCell (f : Frame) (r0 c0 v : ℕ) : Frame :=
  { h := f.h, w := f.w,
    px := fun r c ch =>
      if r0 ≤ r ∧ r < r0 + 32 ∧ r < f.h ∧ c0 ≤ c ∧ c < c0 + 32 ∧ c < f.w ∧ ch < 3 then v
      else f.px r c ch }

/-- Fingerprint encoding, `VideoStreamer.process_frame` lines 159-163: paint
the five 32×32 cells with bit i of the counter; `(count >> i & 1) * 255` is
written here as `count / 2^i % 2 * 255`. -/
def encode (f : Frame) (count : ℕ) : Frame :=
  paintCell (paintCell (paintCell (paintCell (paintCell f 0 0 (count / 1 % 2 * 255))
    0 32 (count / 2 % 2 * 255)) 32 0 (count / 4 % 2 * 255)) 32 32 (count / 8 % 2 * 255))
    64 0 (count / 16 % 2 * 255)

/-- Sum of `g 0 + g 1 + ... + g (n-1)`. -/
def sumRange : ℕ → (ℕ → ℕ) → ℕ
  | 0, _ => 0
  | n + 1, g => sumRange n g + g n

/-- Sum of the three channels of one pixel. -/
def pxSum3 (f : Frame) (r c : ℕ) : ℕ :=
  f.px r c 0 + f.px r c 1 + f.px r c 2

/-- Total brightness of the (clipped) cell `frame[r0:r0+32, c0:c0+32, :]`. -/
def cellSum (f : Frame) (r0 c0 : ℕ) : ℕ :=
  sumRange (min (r0 + 32) f.h - r0) fun i =>
    sumRange (min (c0 + 32) f.w - c0) fun j => pxSum3 f (r0 + i) (c0 + j)

/-- Number of scalar entries of the (clipped) cell. -/
def cellCount (f : Frame) (r0 c0 : ℕ) : ℕ :=
  (min (r0 + 32) f.h - r0) * (min (c0 + 32) f.w - c0) * 3

/-- Truncated cell mean, `int(np.average(frame[r0:r0+32, c0:c0+32, :]))`.
The float64 quotient is correctly rounded and the exact quotient, when not an
integer, is at least `1 / cellCount` away from one, far beyond the rounding
error, so `int(...)` truncation coincides with natural floor division. -/
def cellAvg (f : Frame) (r0 c0 : ℕ) : ℕ :=
  cellSum f r0 c0 / cellCount f r0 c0

/-- Fingerprint decoding, `VideoStreamReceiver.process_frame` lines 191-196:
bit i is set when the truncated mean of cell i exceeds 128. -/
def decode (f : Frame) : ℕ :=
  (if 128 < cellAvg f 0 0 then 1 else 0) +
  (if 128 < cellAvg f 0 32 then 2 else 0) +
  (if 128 < cellAvg f 32 0 then 4 else 0) +
  (if 128 < cellAvg f 32 32 then 8 else 0) +
  (if 128 < cellAvg f 64 0 then 16 else 0)

/-- A uniform frame of dimensions `h × w` with every pixel at brightness `g`. -/
def blankFrame (h w g : ℕ) : Frame :=
  ⟨h, w, fun _ _ _ => g⟩

/-- The 128×128 all-gray frame of spec scenario A. -/
def gray128 : Frame :=
  blankFrame 128 128 128

/-! The Timestamp Correlation Store, `LatencyCalculator` in
`src/operator/view.py`.  `frame_timestamps` is a Python dict, modelled as an
association list in insertion order with unique keys maintained by
insertion. -/

/-- Association-list image of the `frame_timestamps` dict. -/
abbrev Store := List (ℕ × ℚ)

/-- Dict membership lookup, `frame_timestamps[frame_count]`. -/
def lookup : Store → ℕ → Option ℚ
  | [], _ => none
  | p :: ps, k => if p.1 = k then some p.2 else lookup ps k

/-- Dict assignment `frame_timestamps[frame_count] = timestamp`: overwrite in
place when the key exists, append otherwise. -/
def insertStore : Store → ℕ → ℚ → Store
  | [], k, v => [(k, v)]
  | p :: ps, k, v => if p.1 = k then (k, v) :: ps else p :: insertStore ps k v

/-- Dict `pop(key)`: remove the entry with the given key. -/
def eraseKey : Store → ℕ → Store
  | [], _ => []
  | p :: ps, k => if p.1 = k then eraseKey ps k else p :: eraseKey ps k

/-- Python `min(frame_timestamps.keys())` (only ever called on a nonempty
store in the source). -/
def minKey : Store → ℕ
  | [] => 0
  | p :: ps => ps.foldl (fun m q => min m q.1) p.1

/-- `LatencyCalculator.store_frame_timestamp` lines 52-59: insert, then if
the store holds more than 100 entries, pop the entry with the smallest key. -/
def record (s : Store) (k : ℕ) (v : ℚ) : Store :=
  let s1 := insertStore s k v
  if 100 < s1.length then eraseKey s1 (minKey s1) else s1

/-- The mutable state of `LatencyCalculator` used by the correlation path:
the timestamp dict and the `deque(maxlen=30)` latency window. -/
structure LatencyCalculator where
  frame_timestamps : Store
  latency_values : List ℚ

/-- Store update method `store_frame_timestamp` on the whole state. -/
def store_frame_timestamp (st : LatencyCalculator) (k : ℕ) (v : ℚ) : LatencyCalculator :=
  { st with frame_timestamps := record st.frame_timestamps k v }

/-- The last `n` elements of a list (all of it when shorter). -/
def lastN (n : ℕ) (l : List ℚ) : List ℚ :=
  l.drop (l.length - n)

/-- Append to a `deque(maxlen=30)`: keep only the last 30 elements. -/
def dequeAppend (l : List ℚ) (x : ℚ) : List ℚ :=
  lastN 30 (l ++ [x])

/-- Arithmetic mean, `sum(latency_values) / len(latency_values)`. -/
def listMean (l : List ℚ) : ℚ :=
  l.sum / (l.length : ℚ)

/-- `LatencyCalculator.calculate_true_latency` lines 61-75, with the wall
clock read `time.time()` passed explicitly as `now`.  Returns the state and
the `(avg_latency, latency_ms)` pair of the source (both `None` on a miss). -/
def calculate_true_latency (st : LatencyCalculator) (k : ℕ) (now : ℚ) :
    LatencyCalculator × Option ℚ × Option ℚ :=
  match lookup st.frame_timestamps k with
  | some sent =>
    let latency_ms := (now - sent) * 1000
    let lv := dequeAppend st.latency_values latency_ms
    ({ st with latency_values := lv }, some (listMean lv), some latency_ms)
  | none => (st, none, none)

/-- A call into the correlation store: a `Record` from the side-channel
subscriber thread or a `Correlate` from the render loop. -/
inductive Op where
  | store (k : ℕ) (v : ℚ)
  | corr (k : ℕ) (now : ℚ)

/-- Apply one call to the `LatencyCalculator` state. -/
def applyOp (st : LatencyCalculator) : Op → LatencyCalculator
  | .store k v => store_frame_timestamp st k v
  | .corr k now => (calculate_true_latency st k now).1

/-- Run a call sequence from the freshly constructed (empty) state. -/
def runOps (ops : List Op) : LatencyCalculator :=
  ops.foldl applyOp ⟨[], []⟩

/-- One correlation step threading the last returned average. -/
def stepCorrelate (q : LatencyCalculator × Option ℚ) (c : ℕ × ℚ) :
    LatencyCalculator × Option ℚ :=
  ((calculate_true_latency q.1 c.1 c.2).1, (calculate_true_latency q.1 c.1 c.2).2.1)

/-- Run a sequence of `calculate_true_latency` calls, keeping the state and
the average returned by the last call. -/
def runCorrelatesAvg (st : LatencyCalculator) (calls : List (ℕ × ℚ)) :
    LatencyCalculator × Option ℚ :=
  calls.foldl stepCorrelate (st, none)

/-! The sender loop state of `VideoStreamer` (`src/robot/stream.py`): the
shared `frame_count` variable, the two fps-bookkeeping clocks, and the last
fps value printed.  One loop iteration (`start` lines 225-241) runs
`process_frame` and then `calculate_fps`. -/

structure SenderState where
  frame_count : ℕ
  start_time : ℚ
  last_fps_print : ℚ
  lastFps : Option ℚ

/-- `VideoStreamer.process_frame` counter logic, line 155: advance the
counter mod 32.  The returned number is the value painted onto the frame
(lines 159-163) and published with the ZeroMQ timestamp (lines 170-178). -/
def process_frame (st : SenderState) : SenderState × ℕ :=
  let fc := (st.frame_count + 1) % 32
  ({ st with frame_count := fc }, fc)

/-- `VideoStreamer.calculate_fps` lines 195-206, with `time.time()` passed as
`t`: every second, compute `fps = frame_count / (t - start_time)` and reset
`frame_count`, `start_time` and `last_fps_print`. -/
def calculate_fps (st : SenderState) (t : ℚ) : SenderState :=
  if 1 ≤ t - st.last_fps_print then
    { frame_count := 0, start_time := t, last_fps_print := t,
      lastFps := some ((st.frame_count : ℚ) / (t - st.start_time)) }
  else st

/-- One iteration of the sender `Running` loop at wall-clock time `t`,
returning the fingerprint stamped on that frame. -/
def senderIter (st : SenderState) (t : ℚ) : SenderState × ℕ :=
  let pr := process_frame st
  (calculate_fps pr.1 t, pr.2)

/-- Run the sender loop over a list of frame times, collecting the stamped
fingerprints in order. -/
def senderRun : SenderState → List ℚ → SenderState × List ℕ
  | st, [] => (st, [])
  | st, t :: ts =>
    let it := senderIter st t
    let rest := senderRun it.1 ts
    (rest.1, it.2 :: rest.2)

/-- Sender state right after `__init__` (clocks normalised to 0). -/
def senderInit : SenderState :=
  ⟨0, 0, 0, none⟩

/-- Modelled from the spec: the `Encode` of §4.1 and §7, which is absent from
the code — it bounds-checks the frame against the fingerprint region map
bounding box (96 rows × 64 columns) and fails with `InvalidFrameDimensions`
when the frame is smaller, otherwise encodes like the code does. -/
def encodeChecked (f : Frame) (c : ℕ) : Except String Frame :=
  if f.h < 96 ∨ f.w < 64 then Except.error "InvalidFrameDimensions"
  else Except.ok (encode f c)

/-- The latency sample a successful correlation against store `S` computes
for the call `(fingerprint, now)`. -/
def sampleOf (S : Store) (p : ℕ × ℚ) : ℚ :=
  (p.2 - (lookup S p.1).getD 0) * 1000

/-! Concrete inputs used to check the claims on explicit data. -/

/-- A 96×64 frame with nonuniform pixel content. -/
def texturedFrame : Frame :=
  ⟨96, 64, fun r c ch => (r * 7 + c * 3 + ch) % 256⟩

/-- The frame `encode gray128 1` with cell 0 perturbed from all-255 to an
alternation of 129 and 128, giving cell 0 the exact mean 128.5 — strictly
above the 128 threshold — while every other pixel keeps its encoded value. -/
def gPerturbed : Frame :=
  ⟨128, 128, fun r c _ =>
    if r < 32 ∧ c < 32 then (if c % 2 = 0 then 129 else 128)
    else if (r < 64 ∧ c < 64) ∨ (64 ≤ r ∧ r < 96 ∧ c < 32) then 0
    else 128⟩

/-- A store holding 100 entries, key `k` ↦ timestamp `100 - k`: the smallest
key 0 carries the numerically largest timestamp. -/
def exStore : Store :=
  (List.range 100).map fun k => (k, ((100 - k : ℕ) : ℚ))

/-- Frame times exhibiting the counter reset: the second frame trips the
1-second fps window, resetting `frame_count` before the third frame. -/
def c2Times : List ℚ :=
  [0, 1, 1]

/-- Frame times putting 34 frames into the first fps window: 33 frames
before the window closes and a 34th that trips it. -/
def fpsTimes : List ℚ :=
  [0, 0, 0, 0, 0, 0, 0, 0, 0, 0, 0, 0, 0, 0, 0, 0, 0,
   0, 0, 0, 0, 0, 0, 0, 0, 0, 0, 0, 0, 0, 0, 0, 0, 1]

/-! Lemmas about the fingerprint codec. -/

lemma paintCell_px (f : Frame) (r0 c0 v r c ch : ℕ) :
    (paintCell f r0 c0 v).px r c ch =
      if r0 ≤ r ∧ r < r0 + 32 ∧ r < f.h ∧ c0 ≤ c ∧ c < c0 + 32 ∧ c < f.w ∧ ch < 3 then v
      else f.px r c ch := rfl

lemma paintCell_h (f : Frame) (r0 c0 v : ℕ) : (paintCell f r0 c0 v).h = f.h := rfl

lemma paintCell_w (f : Frame) (r0 c0 v : ℕ) : (paintCell f r0 c0 v).w = f.w := rfl

lemma encode_px0 (f : Frame) (c : ℕ) (r cc ch : ℕ) (hr : r < 32) (hc : cc < 32)
    (hch : ch < 3) (hh : 96 ≤ f.h) (hw : 64 ≤ f.w) :
    (encode f c).px r cc ch = c / 1 % 2 * 255 := by
  unfold encode
  rw [paintCell_px]
  simp only [paintCell_h, paintCell_w]
  rw [if_neg (by omega), paintCell_px]
  simp only [paintCell_h, paintCell_w]
  rw [if_neg (by omega), paintCell_px]
  simp only [paintCell_h, paintCell_w]
  rw [if_neg (by omega), paintCell_px]
  simp only [paintCell_h, paintCell_w]
  rw [if_neg (by omega), paintCell_px]
  rw [if_pos (by omega)]

lemma encode_px1 (f : Frame) (c : ℕ) (r cc ch : ℕ) (hr : r < 32) (hc1 : 32 ≤ cc)
    (hc2 : cc < 64) (hch : ch < 3) (hh : 96 ≤ f.h) (hw : 64 ≤ f.w) :
    (encode f c).px r cc ch = c / 2 % 2 * 255 := by
  unfold encode
  rw [paintCell_px]
  simp only [paintCell_h, paintCell_w]
  rw [if_neg (by omega), paintCell_px]
  simp only [paintCell_h, paintCell_w]
  rw [if_neg (by omega), paintCell_px]
  simp only [paintCell_h, paintCell_w]
  rw [if_neg (by omega), paintCell_px]
  simp only [paintCell_h, paintCell_w]
  rw [if_pos (by omega)]

lemma encode_px2 (f : Frame) (c : ℕ) (r cc ch : ℕ) (hr1 : 32 ≤ r) (hr2 : r < 64)
    (hc : cc < 32) (hch : ch < 3) (hh : 96 ≤ f.h) (hw : 64 ≤ f.w) :
    (encode f c).px r cc ch = c / 4 % 2 * 255 := by
  unfold encode
  rw [paintCell_px]
  simp only [paintCell_h, paintCell_w]
  rw [if_neg (by omega), paintCell_px]
  simp only [paintCell_h, paintCell_w]
  rw [if_neg (by omega), paintCell_px]
  simp only [paintCell_h, paintCell_w]
  rw [if_pos (by omega)]

lemma encode_px3 (f : Frame) (c : ℕ) (r cc ch : ℕ) (hr1 : 32 ≤ r) (hr2 : r < 64)
    (hc1 : 32 ≤ cc) (hc2 : cc < 64) (hch : ch < 3) (hh : 96 ≤ f.h) (hw : 64 ≤ f.w) :
    (encode f c).px r cc ch = c / 8 % 2 * 255 := by
  unfold encode
  rw [paintCell_px]
  simp only [paintCell_h, paintCell_w]
  rw [if_neg (by omega), paintCell_px]
  simp only [paintCell_h, paintCell_w]
  rw [if_pos (by omega)]

lemma encode_px4 (f : Frame) (c : ℕ) (r cc ch : ℕ) (hr1 : 64 ≤ r) (hr2 : r < 96)
    (hc : cc < 32) (hch : ch < 3) (hh : 96 ≤ f.h) (hw : 64 ≤ f.w) :
    (encode f c).px r cc ch = c / 16 % 2 * 255 := by
  unfold encode
  rw [paintCell_px]
  simp only [paintCell_h, paintCell_w]
  rw [if_pos (by omega)]

lemma sumRange_const (n k : ℕ) (g : ℕ → ℕ) (h : ∀ i, i < n → g i = k) :
    sumRange n g = n * k := by
  induction n with
  | zero => simp [sumRange]
  | succ m ih =>
    rw [sumRange, ih (fun i hi => h i (Nat.lt_succ_of_lt hi)), h m (Nat.lt_succ_self m)]
    ring

lemma cellSum_const (f : Frame) (r0 c0 v : ℕ) (hh : r0 + 32 ≤ f.h) (hw : c0 + 32 ≤ f.w)
    (hpx : ∀ r cc ch, r0 ≤ r → r < r0 + 32 → c0 ≤ cc → cc < c0 + 32 → ch < 3 →
      f.px r cc ch = v) :
    cellSum f r0 c0 = 3072 * v := by
  unfold cellSum
  rw [Nat.min_eq_left hh, Nat.min_eq_left hw, Nat.add_sub_cancel_left,
    Nat.add_sub_cancel_left]
  rw [sumRange_const 32 (32 * (3 * v))]
  · ring
  · intro i hi
    rw [sumRange_const 32 (3 * v)]
    intro j hj
    unfold pxSum3
    rw [hpx (r0 + i) (c0 + j) 0 (by omega) (by omega) (by omega) (by omega) (by omega),
        hpx (r0 + i) (c0 + j) 1 (by omega) (by omega) (by omega) (by omega) (by omega),
        hpx (r0 + i) (c0 + j) 2 (by omega) (by omega) (by omega) (by omega) (by omega)]
    ring

lemma cellCount_eq (f : Frame) (r0 c0 : ℕ) (hh : r0 + 32 ≤ f.h) (hw : c0 + 32 ≤ f.w) :
    cellCount f r0 c0 = 3072 := by
  unfold cellCount
  rw [Nat.min_eq_left hh, Nat.min_eq_left hw, Nat.add_sub_cancel_left,
    Nat.add_sub_cancel_left]

lemma encode_h (f : Frame) (c : ℕ) : (encode f c).h = f.h := rfl

lemma encode_w (f : Frame) (c : ℕ) : (encode f c).w = f.w := rfl

lemma cellAvg_encode0 (f : Frame) (c : ℕ) (hh : 96 ≤ f.h) (hw : 64 ≤ f.w) :
    cellAvg (encode f c) 0 0 = c / 1 % 2 * 255 := by
  rw [cellAvg,
    cellSum_const _ _ _ _ (by rw [encode_h]; omega) (by rw [encode_w]; omega)
      (fun r cc ch h1 h2 h3 h4 h5 =>
        encode_px0 f c r cc ch (by omega) (by omega) h5 hh hw),
    cellCount_eq _ _ _ (by rw [encode_h]; omega) (by rw [encode_w]; omega),
    Nat.mul_div_cancel_left _ (by norm_num : (0:ℕ) < 3072)]

lemma cellAvg_encode1 (f : Frame) (c : ℕ) (hh : 96 ≤ f.h) (hw : 64 ≤ f.w) :
    cellAvg (encode f c) 0 32 = c / 2 % 2 * 255 := by
  rw [cellAvg,
    cellSum_const _ _ _ _ (by rw [encode_h]; omega) (by rw [encode_w]; omega)
      (fun r cc ch h1 h2 h3 h4 h5 =>
        encode_px1 f c r cc ch (by omega) (by omega) (by omega) h5 hh hw),
    cellCount_eq _ _ _ (by rw [encode_h]; omega) (by rw [encode_w]; omega),
    Nat.mul_div_cancel_left _ (by norm_num : (0:ℕ) < 3072)]

lemma cellAvg_encode2 (f : Frame) (c : ℕ) (hh : 96 ≤ f.h) (hw : 64 ≤ f.w) :
    cellAvg (encode f c) 32 0 = c / 4 % 2 * 255 := by
  rw [cellAvg,
    cellSum_const _ _ _ _ (by rw [encode_h]; omega) (by rw [encode_w]; omega)
      (fun r cc ch h1 h2 h3 h4 h5 =>
        encode_px2 f c r cc ch (by omega) (by omega) (by omega) h5 hh hw),
    cellCount_eq _ _ _ (by rw [encode_h]; omega) (by rw [encode_w]; omega),
    Nat.mul_div_cancel_left _ (by norm_num : (0:ℕ) < 3072)]

lemma cellAvg_encode3 (f : Frame) (c : ℕ) (hh : 96 ≤ f.h) (hw : 64 ≤ f.w) :
    cellAvg (encode f c) 32 32 = c / 8 % 2 * 255 := by
  rw [cellAvg,
    cellSum_const _ _ _ _ (by rw [encode_h]; omega) (by rw [encode_w]; omega)
      (fun r cc ch h1 h2 h3 h4 h5 =>
        encode_px3 f c r cc ch (by omega) (by omega) (by omega) (by omega) h5 hh hw),
    cellCount_eq _ _ _ (by rw [encode_h]; omega) (by rw [encode_w]; omega),
    Nat.mul_div_cancel_left _ (by norm_num : (0:ℕ) < 3072)]

lemma cellAvg_encode4 (f : Frame) (c : ℕ) (hh : 96 ≤ f.h) (hw : 64 ≤ f.w) :
    cellAvg (encode f c) 64 0 = c / 16 % 2 * 255 := by
  rw [cellAvg,
    cellSum_const _ _ _ _ (by rw [encode_h]; omega) (by rw [encode_w]; omega)
      (fun r cc ch h1 h2 h3 h4 h5 =>
        encode_px4 f c r cc ch (by omega) (by omega) (by omega) h5 hh hw),
    cellCount_eq _ _ _ (by rw [encode_h]; omega) (by rw [encode_w]; omega),
    Nat.mul_div_cancel_left _ (by norm_num : (0:ℕ) < 3072)]

lemma ite_bit_mul (b k : ℕ) (hb : b ≤ 1) : (if 128 < b * 255 then k else 0) = b * k := by
  rcases Nat.le_one_iff_eq_zero_or_eq_one.mp hb with rfl | rfl
  · norm_num
  · norm_num

lemma decode_encode_of_dims (f : Frame) (c : ℕ) (hc : c < 32) (hh : 96 ≤ f.h)
    (hw : 64 ≤ f.w) : decode (encode f c) = c := by
  unfold decode
  rw [cellAvg_encode0 f c hh hw, cellAvg_encode1 f c hh hw, cellAvg_encode2 f c hh hw,
    cellAvg_encode3 f c hh hw, cellAvg_encode4 f c hh hw]
  rw [ite_bit_mul (c / 1 % 2) 1 (by omega), ite_bit_mul (c / 2 % 2) 2 (by omega),
    ite_bit_mul (c / 4 % 2) 4 (by omega), ite_bit_mul (c / 8 % 2) 8 (by omega),
    ite_bit_mul (c / 16 % 2) 16 (by omega)]
  omega

/-- Claim C5: for every counter value c in [0, 32), decoding a blank frame
immediately after encoding c onto it returns exactly c when no noise is
introduced. -/
theorem decode_encode_blank_roundtrip (h w g c : ℕ) (hh : 96 ≤ h) (hw : 64 ≤ w)
    (hc : c < 32) : decode (encode (blankFrame h w g) c) = c :=
  decode_encode_of_dims _ c hc hh hw

/-- Witness for C5, spec scenario A: encoding counter 0 on the 128×128
all-gray frame and decoding yields 0. -/
theorem decode_encode_blank_roundtrip_witness :
    96 ≤ (128 : ℕ) ∧ 64 ≤ (128 : ℕ) ∧ (0 : ℕ) < 32 ∧ decode (encode gray128 0) = 0 :=
  ⟨by norm_num, by norm_num, by norm_num,
    decode_encode_blank_roundtrip 128 128 128 0 (by norm_num) (by norm_num) (by norm_num)⟩

/-- Claim C10: for every frame with at least 96 rows and 64 columns and every
counter c in [0, 32), decoding after encoding yields exactly c regardless of
the frame's prior pixel content, since encode overwrites every pixel of all
three channels in each of the five cells. -/
theorem decode_encode_roundtrip_any_frame (f : Frame) (c : ℕ) (hc : c < 32)
    (hh : 96 ≤ f.h) (hw : 64 ≤ f.w) : decode (encode f c) = c :=
  decode_encode_of_dims f c hc hh hw

/-- Witness for C10 at a frame with nonuniform prior content. -/
theorem decode_encode_roundtrip_any_frame_witness :
    (19 : ℕ) < 32 ∧ 96 ≤ texturedFrame.h ∧ 64 ≤ texturedFrame.w ∧
    decode (encode texturedFrame 19) = 19 :=
  ⟨by norm_num, by decide, by decide,
    decode_encode_roundtrip_any_frame texturedFrame 19 (by norm_num) (by decide) (by decide)⟩

/-- Counterexample to claim C4: on a 10×10 frame — far smaller than the
96×64 region map — the code's encode raises no error at all: it silently
paints the clipped part of cell 0 and returns a frame, where the
spec-modelled checked encode fails with `InvalidFrameDimensions`. -/
theorem encode_small_frame_silently_clips :
    encodeChecked (blankFrame 10 10 0) 1 = Except.error "InvalidFrameDimensions" ∧
    (encode (blankFrame 10 10 0) 1).px 0 0 0 = 255 ∧
    (encode (blankFrame 10 10 0) 1).px 9 9 2 = 255 ∧
    (blankFrame 10 10 0).px 0 0 0 = 0 :=
  ⟨rfl, by decide, by decide, rfl⟩

/-- Claim C4 as amended: encode performs no dimension check and has no error
path; on any frame it silently paints only the in-bounds portion of each
cell (numpy slice clipping), leaves every pixel outside the 96×64 region map
bounding box unchanged, and preserves the frame's dimensions. -/
theorem encode_unchecked_outside_region (f : Frame) (c r cc ch : ℕ)
    (hout : 96 ≤ r ∨ 64 ≤ cc) :
    (encode f c).px r cc ch = f.px r cc ch ∧ (encode f c).h = f.h ∧
    (encode f c).w = f.w := by
  refine ⟨?_, rfl, rfl⟩
  unfold encode
  rw [paintCell_px]
  simp only [paintCell_h, paintCell_w]
  rw [if_neg (by omega), paintCell_px]
  simp only [paintCell_h, paintCell_w]
  rw [if_neg (by omega), paintCell_px]
  simp only [paintCell_h, paintCell_w]
  rw [if_neg (by omega), paintCell_px]
  simp only [paintCell_h, paintCell_w]
  rw [if_neg (by omega), paintCell_px]
  rw [if_neg (by omega)]

/-- Witness for the amended C4. -/
theorem encode_unchecked_outside_region_witness :
    (96 ≤ (100 : ℕ) ∨ 64 ≤ (5 : ℕ)) ∧
    (encode gray128 3).px 100 5 0 = gray128.px 100 5 0 :=
  ⟨Or.inl (by norm_num),
    (encode_unchecked_outside_region gray128 3 100 5 0 (Or.inl (by norm_num))).1⟩

/-- Counterexample to claim C8: after encoding counter 1, perturbing cell 0
to the exact mean 128.5 keeps that cell's mean strictly above the 128
threshold (sum over the 3072 cell entries exceeds 128·3072) and keeps every
0-bit cell at or below it, yet decode returns 0, not 1 — the `int(...)`
truncation in the decoder moves the effective threshold to mean ≥ 129. -/
theorem decode_mean_above_threshold_misdecode :
    128 * cellCount gPerturbed 0 0 < cellSum gPerturbed 0 0 ∧
    cellSum gPerturbed 0 32 ≤ 128 * cellCount gPerturbed 0 32 ∧
    cellSum gPerturbed 32 0 ≤ 128 * cellCount gPerturbed 32 0 ∧
    cellSum gPerturbed 32 32 ≤ 128 * cellCount gPerturbed 32 32 ∧
    cellSum gPerturbed 64 0 ≤ 128 * cellCount gPerturbed 64 0 ∧
    decode gPerturbed = 0 :=
  ⟨by decide, by decide, by decide, by decide, by decide, by decide⟩

/-- Claim C8 as amended: decode returns exactly c provided every 1-bit
cell's brightness sum is at least 129·3072 (truncated mean strictly above
128) and every 0-bit cell's sum is at most 128·3072 (mean at or below 128);
the strict-side condition of the original claim must be tightened to the
truncated mean on the 1-bit side. -/
theorem decode_correct_of_truncated_means (f : Frame) (c : ℕ) (hc : c < 32)
    (hh : 96 ≤ f.h) (hw : 64 ≤ f.w)
    (hb0 : if c / 1 % 2 = 1 then 129 * 3072 ≤ cellSum f 0 0
      else cellSum f 0 0 ≤ 128 * 3072)
    (hb1 : if c / 2 % 2 = 1 then 129 * 3072 ≤ cellSum f 0 32
      else cellSum f 0 32 ≤ 128 * 3072)
    (hb2 : if c / 4 % 2 = 1 then 129 * 3072 ≤ cellSum f 32 0
      else cellSum f 32 0 ≤ 128 * 3072)
    (hb3 : if c / 8 % 2 = 1 then 129 * 3072 ≤ cellSum f 32 32
      else cellSum f 32 32 ≤ 128 * 3072)
    (hb4 : if c / 16 % 2 = 1 then 129 * 3072 ≤ cellSum f 64 0
      else cellSum f 64 0 ≤ 128 * 3072) :
    decode f = c := by
  have e0 : cellAvg f 0 0 = cellSum f 0 0 / 3072 := by
    rw [cellAvg, cellCount_eq f 0 0 (by omega) (by omega)]
  have e1 : cellAvg f 0 32 = cellSum f 0 32 / 3072 := by
    rw [cellAvg, cellCount_eq f 0 32 (by omega) (by omega)]
  have e2 : cellAvg f 32 0 = cellSum f 32 0 / 3072 := by
    rw [cellAvg, cellCount_eq f 32 0 (by omega) (by omega)]
  have e3 : cellAvg f 32 32 = cellSum f 32 32 / 3072 := by
    rw [cellAvg, cellCount_eq f 32 32 (by omega) (by omega)]
  have e4 : cellAvg f 64 0 = cellSum f 64 0 / 3072 := by
    rw [cellAvg, cellCount_eq f 64 0 (by omega) (by omega)]
  have g0 : (if 128 < cellAvg f 0 0 then 1 else 0) = c / 1 % 2 := by
    rw [e0]
    by_cases hb : c / 1 % 2 = 1
    · rw [if_pos hb] at hb0; rw [if_pos (by omega)]; omega
    · rw [if_neg hb] at hb0; rw [if_neg (by omega)]; omega
  have g1 : (if 128 < cellAvg f 0 32 then 2 else 0) = c / 2 % 2 * 2 := by
    rw [e1]
    by_cases hb : c / 2 % 2 = 1
    · rw [if_pos hb] at hb1; rw [if_pos (by omega)]; omega
    · rw [if_neg hb] at hb1; rw [if_neg (by omega)]; omega
  have g2 : (if 128 < cellAvg f 32 0 then 4 else 0) = c / 4 % 2 * 4 := by
    rw [e2]
    by_cases hb : c / 4 % 2 = 1
    · rw [if_pos hb] at hb2; rw [if_pos (by omega)]; omega
    · rw [if_neg hb] at hb2; rw [if_neg (by omega)]; omega
  have g3 : (if 128 < cellAvg f 32 32 then 8 else 0) = c / 8 % 2 * 8 := by
    rw [e3]
    by_cases hb : c / 8 % 2 = 1
    · rw [if_pos hb] at hb3; rw [if_pos (by omega)]; omega
    · rw [if_neg hb] at hb3; rw [if_neg (by omega)]; omega
  have g4 : (if 128 < cellAvg f 64 0 then 16 else 0) = c / 16 % 2 * 16 := by
    rw [e4]
    by_cases hb : c / 16 % 2 = 1
    · rw [if_pos hb] at hb4; rw [if_pos (by omega)]; omega
    · rw [if_neg hb] at hb4; rw [if_neg (by omega)]; omega
  unfold decode
  rw [g0, g1, g2, g3, g4]
  omega

/-- Witness for the amended C8 at the noise-free encoding of counter 21. -/
theorem decode_correct_of_truncated_means_witness :
    decode (encode gray128 21) = 21 :=
  decode_correct_of_truncated_means (encode gray128 21) 21 (by norm_num)
    (by decide) (by decide) (by decide) (by decide) (by decide) (by decide) (by decide)

/-! Lemmas about the Correlation Store. -/

lemma lookup_eraseKey_self (s : Store) (k : ℕ) : lookup (eraseKey s k) k = none := by
  induction s with
  | nil => rfl
  | cons p ps ih =>
    by_cases h : p.1 = k
    · simp only [eraseKey, if_pos h]
      exact ih
    · simp only [eraseKey, if_neg h, lookup, if_neg h]
      exact ih

lemma lookup_eraseKey_ne (s : Store) (k q : ℕ) (hq : q ≠ k) :
    lookup (eraseKey s k) q = lookup s q := by
  induction s with
  | nil => rfl
  | cons p ps ih =>
    by_cases h : p.1 = k
    · simp only [eraseKey, if_pos h, lookup, ih]
      rw [if_neg (show ¬p.1 = q by omega)]
    · simp only [eraseKey, if_neg h, lookup]
      by_cases h2 : p.1 = q
      · rw [if_pos h2, if_pos h2]
      · rw [if_neg h2, if_neg h2]
        exact ih

lemma foldl_min_le (l : List (ℕ × ℚ)) (a : ℕ) :
    l.foldl (fun m q => min m q.1) a ≤ a := by
  induction l generalizing a with
  | nil => simp
  | cons p ps ih =>
    rw [List.foldl_cons]
    exact le_trans (ih (min a p.1)) (min_le_left a p.1)

lemma foldl_min_le_mem (l : List (ℕ × ℚ)) (p : ℕ × ℚ) (hp : p ∈ l) :
    ∀ a : ℕ, l.foldl (fun m q => min m q.1) a ≤ p.1 := by
  induction l with
  | nil => cases hp
  | cons q qs ih =>
    intro a
    rw [List.foldl_cons]
    rcases List.mem_cons.mp hp with rfl | h
    · exact le_trans (foldl_min_le qs _) (min_le_right a p.1)
    · exact ih h _

lemma minKey_le (s : Store) (p : ℕ × ℚ) (hp : p ∈ s) : minKey s ≤ p.1 := by
  cases s with
  | nil => cases hp
  | cons q qs =>
    simp only [minKey]
    rcases List.mem_cons.mp hp with rfl | h
    · exact foldl_min_le qs p.1
    · exact foldl_min_le_mem qs p h q.1

lemma foldl_min_mem (l : List (ℕ × ℚ)) : ∀ a : ℕ,
    l.foldl (fun m q => min m q.1) a = a ∨
      ∃ p ∈ l, l.foldl (fun m q => min m q.1) a = p.1 := by
  induction l with
  | nil => intro a; exact Or.inl rfl
  | cons q qs ih =>
    intro a
    rw [List.foldl_cons]
    rcases ih (min a q.1) with h | ⟨p, hp, h⟩
    · rcases Nat.le_total a q.1 with hle | hle
      · left
        rw [h]
        exact min_eq_left hle
      · right
        exact ⟨q, List.mem_cons_self q qs, by rw [h]; exact min_eq_right hle⟩
    · right
      exact ⟨p, List.mem_cons_of_mem q hp, h⟩

lemma minKey_mem (s : Store) (hs : s ≠ []) : ∃ p ∈ s, p.1 = minKey s := by
  cases s with
  | nil => exact absurd rfl hs
  | cons q qs =>
    simp only [minKey]
    rcases foldl_min_mem qs q.1 with h | ⟨p, hp, h⟩
    · exact ⟨q, List.mem_cons_self q qs, h.symm⟩
    · exact ⟨p, List.mem_cons_of_mem q hp, h.symm⟩

lemma length_eraseKey_le (s : Store) (k : ℕ) : (eraseKey s k).length ≤ s.length := by
  induction s with
  | nil => simp [eraseKey]
  | cons p ps ih =>
    by_cases h : p.1 = k
    · simp only [eraseKey, if_pos h, List.length_cons]
      omega
    · simp only [eraseKey, if_neg h, List.length_cons]
      omega

lemma length_eraseKey_lt (s : Store) (k : ℕ) (hmem : ∃ p ∈ s, p.1 = k) :
    (eraseKey s k).length < s.length := by
  induction s with
  | nil =>
    obtain ⟨p, hp, _⟩ := hmem
    cases hp
  | cons p ps ih =>
    by_cases h : p.1 = k
    · simp only [eraseKey, if_pos h, List.length_cons]
      have := length_eraseKey_le ps k
      omega
    · simp only [eraseKey, if_neg h, List.length_cons]
      obtain ⟨q, hq, hqk⟩ := hmem
      rcases List.mem_cons.mp hq with rfl | hq2
      · exact absurd hqk h
      · have := ih ⟨q, hq2, hqk⟩
        omega

lemma length_insertStore (s : Store) (k : ℕ) (v : ℚ) :
    (insertStore s k v).length = s.length ∨
      (insertStore s k v).length = s.length + 1 := by
  induction s with
  | nil =>
    right
    rfl
  | cons p ps ih =>
    by_cases h : p.1 = k
    · left
      simp only [insertStore, if_pos h, List.length_cons]
    · rcases ih with h2 | h2
      · left
        simp only [insertStore, if_neg h, List.length_cons]
        omega
      · right
        simp only [insertStore, if_neg h, List.length_cons]
        omega

/-- Counterexample to claim C1: in `exStore` the smallest key 0 holds the
numerically largest timestamp 100, and the inserted entry (100, 0) holds the
smallest one; yet Record evicts key 0 — the entry with the smallest
fingerprint key — and the smallest-timestamp entry survives. -/
theorem record_eviction_ignores_timestamps :
    lookup exStore 0 = some 100 ∧
    (insertStore exStore 100 0).length = 101 ∧
    ((insertStore exStore 100 0).all fun p => decide ((0 : ℚ) ≤ p.2)) = true ∧
    lookup (record exStore 100 0) 0 = none ∧
    lookup (record exStore 100 0) 100 = some 0 ∧
    (record exStore 100 0).length = 100 :=
  ⟨by decide, by decide, by decide, by decide, by decide, by decide⟩

/-- Claim C1 as amended: whenever a Record call leaves the store over its
capacity of 100 entries, the entry evicted is exactly the one with the
numerically smallest fingerprint key (`min(frame_timestamps.keys())`), not
the one with the smallest stored timestamp value: the minimal key is at most
every key in the store, its entry is gone afterwards, and every other
entry's lookup is unchanged. -/
theorem record_evicts_smallest_key (s : Store) (k : ℕ) (v : ℚ)
    (hover : 100 < (insertStore s k v).length) :
    lookup (record s k v) (minKey (insertStore s k v)) = none ∧
    (∀ p ∈ insertStore s k v, minKey (insertStore s k v) ≤ p.1) ∧
    ∀ q, q ≠ minKey (insertStore s k v) →
      lookup (record s k v) q = lookup (insertStore s k v) q := by
  have hrec : record s k v =
      eraseKey (insertStore s k v) (minKey (insertStore s k v)) := by
    simp only [record]
    rw [if_pos hover]
  rw [hrec]
  exact ⟨lookup_eraseKey_self _ _, fun p hp => minKey_le _ p hp,
    fun q hq => lookup_eraseKey_ne _ _ _ hq⟩

/-- Witness for the amended C1 on the concrete 100-entry store. -/
theorem record_evicts_smallest_key_witness :
    100 < (insertStore exStore 100 0).length ∧
    lookup (record exStore 100 0) (minKey (insertStore exStore 100 0)) = none :=
  ⟨by decide, (record_evicts_smallest_key exStore 100 0 (by decide)).1⟩

/-! Lemmas about the latency correlation path. -/

lemma correlate_preserves_store (st : LatencyCalculator) (k : ℕ) (now : ℚ) :
    (calculate_true_latency st k now).1.frame_timestamps = st.frame_timestamps := by
  unfold calculate_true_latency
  cases hl : lookup st.frame_timestamps k
  · rfl
  · rfl

lemma record_length_le (s : Store) (k : ℕ) (v : ℚ) (h : s.length ≤ 100) :
    (record s k v).length ≤ 100 := by
  simp only [record]
  by_cases hov : 100 < (insertStore s k v).length
  · rw [if_pos hov]
    have h1 := length_insertStore s k v
    have hne : insertStore s k v ≠ [] := by
      intro he
      rw [he] at hov
      simp at hov
    have h2 := length_eraseKey_lt (insertStore s k v) (minKey (insertStore s k v))
      (minKey_mem _ hne)
    omega
  · rw [if_neg hov]
    omega

lemma runOps_store_le (ops : List Op) : ∀ st : LatencyCalculator,
    st.frame_timestamps.length ≤ 100 →
    (ops.foldl applyOp st).frame_timestamps.length ≤ 100 := by
  induction ops with
  | nil =>
    intro st h
    exact h
  | cons op rest ih =>
    intro st h
    rw [List.foldl_cons]
    apply ih
    cases op with
    | store k v =>
      show (record st.frame_timestamps k v).length ≤ 100
      exact record_length_le _ k v h
    | corr k now =>
      show (calculate_true_latency st k now).1.frame_timestamps.length ≤ 100
      rw [correlate_preserves_store]
      exact h

/-- Claim C7: after any finite sequence of Record and Correlate calls
starting from an empty Correlation Store, the store holds at most 100
entries, and no Correlate call ever removes or modifies any stored entry —
the stored entries are identical before and after every Correlate. -/
theorem store_bounded_and_correlate_pure (ops : List Op) :
    (runOps ops).frame_timestamps.length ≤ 100 ∧
    ∀ k now, (calculate_true_latency (runOps ops) k now).1.frame_timestamps =
      (runOps ops).frame_timestamps :=
  ⟨runOps_store_le ops ⟨[], []⟩ (by simp),
    fun k now => correlate_preserves_store _ k now⟩

/-- Claim C6: Correlate returns a result exactly when the fingerprint has a
recorded timestamp: when present it returns the instantaneous latency
`(now - sent) * 1000` milliseconds together with the windowed-average
latency of the window with the sample appended; when absent it returns no
data and the whole state — hence the latency window and its mean — is
unchanged. -/
theorem calculate_true_latency_spec (st : LatencyCalculator) (k : ℕ) (now : ℚ) :
    ((calculate_true_latency st k now).2.2.isSome ↔
      (lookup st.frame_timestamps k).isSome) ∧
    (∀ sent, lookup st.frame_timestamps k = some sent →
      (calculate_true_latency st k now).2.2 = some ((now - sent) * 1000) ∧
      (calculate_true_latency st k now).1.latency_values =
        dequeAppend st.latency_values ((now - sent) * 1000) ∧
      (calculate_true_latency st k now).2.1 =
        some (listMean (dequeAppend st.latency_values ((now - sent) * 1000)))) ∧
    (lookup st.frame_timestamps k = none →
      (calculate_true_latency st k now).1 = st ∧
      (calculate_true_latency st k now).2.1 = none ∧
      (calculate_true_latency st k now).2.2 = none) := by
  cases hl : lookup st.frame_timestamps k with
  | none =>
    refine ⟨?_, ?_, ?_⟩
    · simp [calculate_true_latency, hl]
    · intro sent hs
      cases hs
    · intro _
      simp [calculate_true_latency, hl]
  | some sent0 =>
    refine ⟨?_, ?_, ?_⟩
    · simp [calculate_true_latency, hl]
    · intro sent hs
      injection hs with he
      subst he
      simp [calculate_true_latency, hl]
    · intro hnone
      cases hnone

/-- Witness for C6, spec scenarios B and D: recording (5, 1000) and
correlating fingerprint 5 at now = 1000.05 yields 50ms; correlating the
never-recorded fingerprint 7 leaves the state untouched. -/
theorem calculate_true_latency_spec_witness :
    (calculate_true_latency ⟨[(5, 1000)], []⟩ 5 (20001 / 20)).2.2 = some 50 ∧
    (calculate_true_latency ⟨[(5, 1000)], []⟩ 7 (20001 / 20)).1 =
      (⟨[(5, 1000)], []⟩ : LatencyCalculator) := by
  constructor
  · have h := ((calculate_true_latency_spec ⟨[(5, 1000)], []⟩ 5 (20001 / 20)).2.1
      1000 (by decide)).1
    exact h.trans (by norm_num)
  · exact ((calculate_true_latency_spec ⟨[(5, 1000)], []⟩ 7 (20001 / 20)).2.2
      (by decide)).1

/-! Lemmas about the bounded latency window. -/

lemma lastN_concat (l : List ℚ) (x : ℚ) :
    lastN 30 (lastN 30 l ++ [x]) = lastN 30 (l ++ [x]) := by
  by_cases h : l.length ≤ 30
  · have h0 : l.length - 30 = 0 := by omega
    simp [lastN, h0]
  · unfold lastN
    simp only [List.length_append, List.length_drop, List.length_singleton]
    rw [List.drop_append_eq_append_drop, List.drop_append_eq_append_drop, List.drop_drop]
    simp only [List.length_drop]
    congr 1
    · congr 1
      omega
    · congr 1
      omega

lemma lastN_length (n : ℕ) (l : List ℚ) : (lastN n l).length = min n l.length := by
  unfold lastN
  rw [List.length_drop]
  omega

lemma stepCorrelate_hit (st : LatencyCalculator) (a0 : Option ℚ) (c : ℕ × ℚ) (sent : ℚ)
    (hsent : lookup st.frame_timestamps c.1 = some sent) :
    stepCorrelate (st, a0) c =
      ({ st with latency_values := dequeAppend st.latency_values ((c.2 - sent) * 1000) },
       some (listMean (dequeAppend st.latency_values ((c.2 - sent) * 1000)))) := by
  simp [stepCorrelate, calculate_true_latency, hsent]

lemma sampleOf_eq (S : Store) (c : ℕ × ℚ) (sent : ℚ) (hsent : lookup S c.1 = some sent) :
    sampleOf S c = (c.2 - sent) * 1000 := by
  simp [sampleOf, hsent]

lemma runCorrelates_window (calls : List (ℕ × ℚ)) :
    ∀ (st : LatencyCalculator) (a0 : Option ℚ) (acc : List ℚ),
      st.latency_values = lastN 30 acc →
      (∀ p ∈ calls, (lookup st.frame_timestamps p.1).isSome) →
      (calls.foldl stepCorrelate (st, a0)).1.frame_timestamps = st.frame_timestamps ∧
      (calls.foldl stepCorrelate (st, a0)).1.latency_values =
        lastN 30 (acc ++ calls.map (sampleOf st.frame_timestamps)) := by
  induction calls with
  | nil =>
    intro st a0 acc hwin hall
    refine ⟨rfl, ?_⟩
    simpa using hwin
  | cons c rest ih =>
    intro st a0 acc hwin hall
    obtain ⟨sent, hsent⟩ := Option.isSome_iff_exists.mp (hall c (List.mem_cons_self c rest))
    rw [List.foldl_cons, stepCorrelate_hit st a0 c sent hsent]
    have hw1 : (dequeAppend st.latency_values ((c.2 - sent) * 1000)) =
        lastN 30 (acc ++ [(c.2 - sent) * 1000]) := by
      rw [hwin]
      exact lastN_concat acc ((c.2 - sent) * 1000)
    obtain ⟨hS, hlv⟩ := ih
      { st with latency_values := dequeAppend st.latency_values ((c.2 - sent) * 1000) }
      (some (listMean (dequeAppend st.latency_values ((c.2 - sent) * 1000))))
      (acc ++ [(c.2 - sent) * 1000]) hw1
      (fun p hp => hall p (List.mem_cons_of_mem c hp))
    refine ⟨hS, ?_⟩
    rw [hlv, List.map_cons, sampleOf_eq st.frame_timestamps c sent hsent,
      List.append_assoc]
    rfl

lemma runCorrelates_last_avg (calls : List (ℕ × ℚ)) :
    ∀ (st : LatencyCalculator) (a0 : Option ℚ),
      calls ≠ [] →
      (∀ p ∈ calls, (lookup st.frame_timestamps p.1).isSome) →
      (calls.foldl stepCorrelate (st, a0)).2 =
        some (listMean ((calls.foldl stepCorrelate (st, a0)).1.latency_values)) := by
  induction calls with
  | nil =>
    intro st a0 hne hall
    exact absurd rfl hne
  | cons c rest ih =>
    intro st a0 hne hall
    obtain ⟨sent, hsent⟩ := Option.isSome_iff_exists.mp (hall c (List.mem_cons_self c rest))
    rw [List.foldl_cons, stepCorrelate_hit st a0 c sent hsent]
    by_cases hr : rest = []
    · subst hr
      rfl
    · exact ih _ _ hr (fun p hp => hall p (List.mem_cons_of_mem c hp))

/-- Claim C9: starting from an empty latency window, after N successful
correlations the window holds exactly the last min(30, N) latency samples in
order, and the windowed average returned by the last correlation equals the
arithmetic mean of exactly those samples. -/
theorem latency_window_mean (st : LatencyCalculator) (calls : List (ℕ × ℚ))
    (hwin : st.latency_values = []) (hne : calls ≠ [])
    (hall : ∀ p ∈ calls, (lookup st.frame_timestamps p.1).isSome) :
    (runCorrelatesAvg st calls).1.latency_values =
      lastN 30 (calls.map (sampleOf st.frame_timestamps)) ∧
    (lastN 30 (calls.map (sampleOf st.frame_timestamps))).length =
      min 30 calls.length ∧
    (runCorrelatesAvg st calls).2 =
      some (listMean (lastN 30 (calls.map (sampleOf st.frame_timestamps)))) := by
  have hwin0 : st.latency_values = lastN 30 [] := hwin
  obtain ⟨hS, hlv⟩ := runCorrelates_window calls st none [] hwin0 hall
  have havg := runCorrelates_last_avg calls st none hne hall
  refine ⟨?_, ?_, ?_⟩
  · show (calls.foldl stepCorrelate (st, none)).1.latency_values = _
    rw [hlv]
    simp
  · rw [lastN_length, List.length_map]
  · show (calls.foldl stepCorrelate (st, none)).2 = _
    rw [havg, hlv]
    simp

/-- Witness for C9: two successful correlations against a store holding
fingerprint 1 at time 0 produce the samples 1000 and 2000 and the mean
1500. -/
theorem latency_window_mean_witness :
    (runCorrelatesAvg ⟨[(1, 0)], []⟩ [(1, 1), (1, 2)]).2 = some 1500 := by
  have h := (latency_window_mean ⟨[(1, 0)], []⟩ [(1, 1), (1, 2)] rfl (by decide)
    (by decide)).2.2
  exact h.trans (by norm_num [sampleOf, lookup, lastN, listMean])

/-- Claim C2, code bug: the fingerprint counter is advanced once per frame by
process_frame, but calculate_fps resets the same `frame_count` variable to 0
every second, so two frames around an fps tick are stamped 1, 2 and then 1
again instead of 1, 2, 3 — contradicting the code's own comment that the
counter keeps increasing, looping every 32 frames. -/
theorem sender_counter_reset_between_frames :
    (senderRun senderInit c2Times).2 = [1, 2, 1] ∧ (1 : ℕ) ≠ (2 + 1) % 32 := by
  constructor
  · norm_num [c2Times, senderRun, senderIter, process_frame, calculate_fps, senderInit]
  · norm_num

/-- Claim C3, code bug: with 34 frames inside the first 1-second fps window
the sender reports fps = (34 mod 32) / elapsed = 2 instead of
34 / elapsed = 34, because the fps counter is the mod-32 fingerprint
counter; the counter is indeed reset afterwards. -/
theorem sender_fps_wraps_at_32 :
    (senderRun senderInit fpsTimes).1.lastFps = some 2 ∧
    (senderRun senderInit fpsTimes).1.frame_count = 0 ∧
    fpsTimes.length = 34 ∧ (2 : ℚ) ≠ 34 / 1 := by
  refine ⟨?_, ?_, by decide, by norm_num⟩
  · norm_num [fpsTimes, senderRun, senderIter, process_frame, calculate_fps, senderInit]
  · norm_num [fpsTimes, senderRun, senderIter, process_frame, calculate_fps, senderInit]

end AvatarStreamer
